import Mathlib

/-!
Verification development for the `rit` version-control core.

The Rust sources are shallowly embedded: bytes are `Nat` (with `< 256` where it
matters), Rust `Result` is `Except String`, and the filesystem touched by the
object store / lockfile code is an explicit association list from path strings
to byte contents.  External crates used by the sources are embedded as follows:
the `sha1` crate is implemented in full (FIPS 180 SHA-1 over byte lists), the
`hex` crate is implemented in full, and the `flate2` zlib encoder is modelled
abstractly as an invertible envelope (see `zlibCompress`).
-/

/-- Bytes of an ASCII string; agrees with Rust's `str::as_bytes` (UTF-8) on
ASCII content, which is the only string content the embedded code produces. -/
def asciiBytes (s : String) : List Nat :=
  s.data.map Char.toNat

/-- Decimal digits of a natural number, as ASCII bytes (`format!("{}", n)`). -/
def decimalBytes (n : Nat) : List Nat :=
  asciiBytes (toString n)

/-- Decimal rendering of an integer, as ASCII bytes (`format!("{}", i)`). -/
def intDecimalBytes (i : Int) : List Nat :=
  asciiBytes (toString i)

/-! ### SHA-1 (the `sha1` crate), over byte lists, words as `Nat` mod 2^32 -/

/-- Truncate to a 32-bit word. -/
def w32 (n : Nat) : Nat := n % 4294967296

/-- Left-rotate a 32-bit word by `s` places (for `n < 2^32`, `0 < s < 32`). -/
def rotl (s n : Nat) : Nat :=
  w32 (n <<< s) ||| (n >>> (32 - s))

/-- Big-endian bytes (4) of a 32-bit word. -/
def be4 (n : Nat) : List Nat :=
  [n / 16777216 % 256, n / 65536 % 256, n / 256 % 256, n % 256]

/-- Big-endian bytes (8) of a 64-bit length field. -/
def be8 (n : Nat) : List Nat :=
  [n / 72057594037927936 % 256, n / 281474976710656 % 256,
   n / 1099511627776 % 256, n / 4294967296 % 256,
   n / 16777216 % 256, n / 65536 % 256, n / 256 % 256, n % 256]

/-- SHA-1 padding: append 0x80, zero bytes to 56 mod 64, then the bit length. -/
def sha1Pad (msg : List Nat) : List Nat :=
  let zeros := (56 + 64 - (msg.length + 1) % 64) % 64
  msg ++ [128] ++ List.replicate zeros 0 ++ be8 (msg.length * 8)

/-- Combine big-endian bytes into 32-bit words. -/
def toWords : List Nat → List Nat
  | a :: b :: c :: d :: rest => (((a * 256 + b) * 256 + c) * 256 + d) :: toWords rest
  | _ => []

/-- Split a word list into 16-word chunks. -/
def chunks16 (l : List Nat) : List (List Nat) :=
  match l with
  | [] => []
  | x :: xs => (x :: xs).take 16 :: chunks16 ((x :: xs).drop 16)
termination_by l.length
decreasing_by simp; omega

/-- Extend a 16-word chunk by `k` further schedule words. -/
def sha1Extend (w : List Nat) : Nat → List Nat
  | 0 => w
  | k + 1 =>
    let n := w.length
    let next := rotl 1 ((w.getD (n - 3) 0 ^^^ w.getD (n - 8) 0) ^^^
                        (w.getD (n - 14) 0 ^^^ w.getD (n - 16) 0))
    sha1Extend (w ++ [next]) k

/-- SHA-1 round function. -/
def sha1F (i b c d : Nat) : Nat :=
  if i < 20 then (b &&& c) ||| ((b ^^^ 4294967295) &&& d)
  else if i < 40 then (b ^^^ c) ^^^ d
  else if i < 60 then ((b &&& c) ||| (b &&& d)) ||| (c &&& d)
  else (b ^^^ c) ^^^ d

/-- SHA-1 round constant. -/
def sha1K (i : Nat) : Nat :=
  if i < 20 then 1518500249
  else if i < 40 then 1859775393
  else if i < 60 then 2400959708
  else 3395469782

/-- One SHA-1 round step on the five-word state. -/
def sha1Step (w : List Nat) (st : Nat × Nat × Nat × Nat × Nat) (i : Nat) :
    Nat × Nat × Nat × Nat × Nat :=
  match st with
  | (a, b, c, d, e) =>
    (w32 (rotl 5 a + sha1F i b c d + e + sha1K i + w.getD i 0), a, rotl 30 b, c, d)

/-- Process one 16-word chunk into the running hash state. -/
def sha1Chunk (h : Nat × Nat × Nat × Nat × Nat) (chunk : List Nat) :
    Nat × Nat × Nat × Nat × Nat :=
  let w := sha1Extend chunk 64
  match h, (List.range 80).foldl (sha1Step w) h with
  | (h0, h1, h2, h3, h4), (a, b, c, d, e) =>
    (w32 (h0 + a), w32 (h1 + b), w32 (h2 + c), w32 (h3 + d), w32 (h4 + e))

/-- SHA-1 digest (20 bytes) of a byte list. -/
def sha1 (msg : List Nat) : List Nat :=
  match (chunks16 (toWords (sha1Pad msg))).foldl sha1Chunk
      (1732584193, 4023233417, 2562383102, 271733878, 3285377520) with
  | (h0, h1, h2, h3, h4) => be4 h0 ++ be4 h1 ++ be4 h2 ++ be4 h3 ++ be4 h4

theorem be4_length (n : Nat) : (be4 n).length = 4 := rfl

theorem be4_lt (n : Nat) : ∀ b ∈ be4 n, b < 256 := by
  simp only [be4, List.mem_cons, List.not_mem_nil, or_false]
  rintro b (rfl | rfl | rfl | rfl) <;> exact Nat.mod_lt _ (by omega)

/-- The digest always has the fixed hash width of 20 bytes. -/
theorem sha1_length (msg : List Nat) : (sha1 msg).length = 20 := by
  unfold sha1
  split
  simp [be4]

/-- Every digest byte is a byte. -/
theorem sha1_lt (msg : List Nat) : ∀ b ∈ sha1 msg, b < 256 := by
  unfold sha1
  split
  intro b hb
  simp only [List.mem_append] at hb
  rcases hb with ((((h | h) | h) | h) | h) <;> exact be4_lt _ _ h

/-! ### Hex encoding (the `hex` crate) -/

/-- Lowercase hex digit for `n < 16` (`hex::encode`). -/
def hexDigitChar (n : Nat) : Char :=
  if n < 10 then Char.ofNat (48 + n) else Char.ofNat (87 + n)

/-- Lowercase hex encoding of a byte list (`hex::encode`). -/
def hexEncode (bs : List Nat) : String :=
  ⟨bs.flatMap fun b => [hexDigitChar (b / 16), hexDigitChar (b % 16)]⟩

/-- Value of one hex digit; `hex::decode` accepts both cases. -/
def hexVal (c : Char) : Option Nat :=
  if 48 ≤ c.toNat ∧ c.toNat ≤ 57 then some (c.toNat - 48)
  else if 97 ≤ c.toNat ∧ c.toNat ≤ 102 then some (c.toNat - 87)
  else if 65 ≤ c.toNat ∧ c.toNat ≤ 70 then some (c.toNat - 55)
  else none

/-- `hex::decode`: fails on an odd length or any non-hex character. -/
def hexDecodeChars : List Char → Option (List Nat)
  | [] => some []
  | [_] => none
  | c1 :: c2 :: rest =>
    match hexVal c1, hexVal c2, hexDecodeChars rest with
    | some hi, some lo, some tl => some ((hi * 16 + lo) :: tl)
    | _, _, _ => none

/-! ### ObjectID and the Storable capability (src/database.rs) -/

/-- `Sha1::output_size()`. -/
def sha1_output_size : Nat := 20

/-- `struct ObjectID { id: Vec<u8> }`: raw digest bytes. -/
structure ObjectID where
  id : List Nat
deriving DecidableEq

/-- The trait object seen by `encoded_raw`/`serialize`/`oid`: a type tag and a
canonical byte payload (`Storable::type_name` / `Storable::data`). -/
structure Storable where
  type_name : String
  data : List Nat

/-- `Storable::encoded_raw`: `"<type> <decimal-byte-length>\0<payload>"`. -/
def Storable.encoded_raw (o : Storable) : List Nat :=
  asciiBytes o.type_name ++ [32] ++ decimalBytes o.data.length ++ [0] ++ o.data

/-- `ObjectID::new`: SHA-1 of the canonical encoding. -/
def ObjectID.new (o : Storable) : ObjectID :=
  ⟨sha1 o.encoded_raw⟩

/-- `ObjectID::from_str`: hex-decode, then check the fixed hash width. -/
def ObjectID.from_str (s : String) : Except String ObjectID :=
  match hexDecodeChars s.data with
  | none => .error "hex decode error"
  | some id => if id.length ≠ sha1_output_size then .error "Invalid ObjectID length"
               else .ok ⟨id⟩

/-- `ObjectID::as_str`: lowercase hex of the raw bytes. -/
def ObjectID.as_str (oid : ObjectID) : String :=
  hexEncode oid.id

/-- Modelled from the spec: the `flate2` zlib encoder (an external crate, not in
src/) at `Compression::fast()`.  The spec needs only that the persisted form is
the *compressed canonical encoding* and that decompressing it restores exactly
the canonical encoding, so compression is modelled as an invertible envelope
(0x78 0x01 is the actual zlib fast-compression header). -/
def zlibCompress (bs : List Nat) : List Nat :=
  120 :: 1 :: bs

/-- Modelled from the spec: zlib decompression, the inverse of `zlibCompress`. -/
def zlibDecompress : List Nat → Option (List Nat)
  | 120 :: 1 :: rest => some rest
  | _ => none

/-- `Storable::serialize`: the zlib-compressed canonical encoding. -/
def Storable.serialize (o : Storable) : List Nat :=
  zlibCompress o.encoded_raw

/-- `Storable::oid`. -/
def Storable.oid (o : Storable) : ObjectID :=
  ObjectID.new o

/-- `struct Blob { data: Vec<u8> }`. -/
structure Blob where
  data : List Nat

/-- `Blob::new`. -/
def Blob.new (data : List Nat) : Blob := ⟨data⟩

/-- The `Storable` impl for `Blob`: type tag "blob", payload = file bytes. -/
def Blob.toStorable (b : Blob) : Storable :=
  ⟨"blob", b.data⟩

/-! ### Filesystem model

The object store and lockfile code touch the filesystem through
create/write/rename/exists.  The durable state is modelled as an association
list from path strings to byte contents (directories are implicit: the claims
never observe them, and `create_dir_all` cannot fail on the modelled paths). -/

/-- Filesystem state: path → contents, newest binding first. -/
structure FS where
  entries : List (String × List Nat)
deriving DecidableEq

/-- The empty filesystem. -/
def FS.empty : FS := ⟨[]⟩

/-- Contents at a path, if present. -/
def FS.lookup (fs : FS) (p : String) : Option (List Nat) :=
  (fs.entries.find? fun e => e.1 == p).map (·.2)

/-- `Path::exists`. -/
def FS.pathExists (fs : FS) (p : String) : Bool :=
  (fs.entries.find? fun e => e.1 == p).isSome

/-- Create or overwrite a file. -/
def FS.insert (fs : FS) (p : String) (v : List Nat) : FS :=
  ⟨(p, v) :: fs.entries⟩

/-- Delete a file. -/
def FS.remove (fs : FS) (p : String) : FS :=
  ⟨fs.entries.filter fun e => ! (e.1 == p)⟩

/-- `std::fs::rename`: atomically move `old` onto `new` (replacing it). -/
def FS.rename (fs : FS) (old new : String) : FS :=
  match fs.lookup old with
  | some v => (fs.remove old).insert new v
  | none => fs

/-! ### Database (src/database.rs, `Database::store`) -/

/-- Final object path `root/<first-2-hex>/<remaining-hex>`. -/
def Database.finalPath (root : String) (o : Storable) : String :=
  root ++ "/" ++ (o.oid.as_str.take 2) ++ "/" ++ (o.oid.as_str.drop 2)

/-- Temporary path used during the store: the final path plus ".tmp". -/
def Database.tmpPath (root : String) (o : Storable) : String :=
  Database.finalPath root o ++ ".tmp"

/-- `Database::store`: serialize, derive the sharded path, short-circuit if the
final path exists, otherwise create the temp file exclusively (error if that
exact temp name is in use), write the compressed bytes, and rename onto the
final path. -/
def Database.store (root : String) (o : Storable) (fs : FS) : Except String FS :=
  let content := o.serialize
  let final_path := Database.finalPath root o
  let tmp_path := Database.tmpPath root o
  if fs.pathExists final_path then .ok fs
  else if fs.pathExists tmp_path then .error "File exists (os error 17)"
  else .ok ((fs.insert tmp_path content).rename tmp_path final_path)

/-! ### Entry and Mode (src/entry.rs)

A `WorkspacePath` is a relative path.  It is modelled as its list of path
components, each component being its raw bytes (on unix, `OsStr` bytes); this
matches `PathBuf` both for `as_os_str().as_bytes()` (components joined by "/")
and for the derived `Ord` (component-wise comparison, each component by raw
bytes). -/

/-- A relative workspace path, as its list of raw-byte components. -/
def WPath : Type := List (List Nat)

instance : DecidableEq WPath := by
  unfold WPath
  infer_instance

/-- `WorkspacePath::as_partial_path().as_os_str().as_bytes()` on unix:
components joined by "/" (byte 47). -/
def WPath.bytes (p : WPath) : List Nat :=
  (List.intersperse [47] p).flatten

/-- `enum Mode` (declaration order fixes the derived `Ord`). -/
inductive Mode where
  | ReadWriteExecute
  | ReadWrite
  | Directory
deriving DecidableEq

/-- `Mode::as_str`. -/
def Mode.as_str : Mode → String
  | .ReadWriteExecute => "100755"
  | .ReadWrite => "100644"
  | .Directory => "040000"

/-- Discriminant used by the derived `Ord` on `Mode`. -/
def Mode.idx : Mode → Nat
  | .ReadWriteExecute => 0
  | .ReadWrite => 1
  | .Directory => 2

/-- `struct Entry { path, oid, mode }` (field order fixes the derived `Ord`). -/
structure Entry where
  path : WPath
  oid : ObjectID
  mode : Mode
deriving DecidableEq

/-- `Entry::new`. -/
def Entry.new (path : WPath) (oid : ObjectID) (mode : Mode) : Entry :=
  ⟨path, oid, mode⟩

/-! ### The derived `Ord`s, as three-way comparisons -/

/-- `u8: Ord`. -/
def cmpNat (a b : Nat) : Ordering :=
  if a < b then .lt else if a = b then .eq else .gt

/-- `Vec<T>`/slice `Ord`: lexicographic, a strict prefix is smaller. -/
def cmpList (cmp : α → α → Ordering) : List α → List α → Ordering
  | [], [] => .eq
  | [], _ :: _ => .lt
  | _ :: _, [] => .gt
  | a :: as_, b :: bs => match cmp a b with
    | .eq => cmpList cmp as_ bs
    | o => o

/-- `OsStr: Ord` on unix: raw bytes. -/
def cmpBytes : List Nat → List Nat → Ordering :=
  cmpList cmpNat

/-- `Path: Ord`: component-wise (`Path::components`), components by raw bytes. -/
def cmpWPath : WPath → WPath → Ordering :=
  cmpList cmpBytes

/-- Lexicographic combination used by a derived struct `Ord`. -/
def Ordering.andThen : Ordering → Ordering → Ordering
  | .eq, o => o
  | o, _ => o

/-- The derived `Ord` on `Entry`: path, then oid, then mode. -/
def Entry.cmp (e1 e2 : Entry) : Ordering :=
  (cmpWPath e1.path e2.path).andThen
    ((cmpBytes e1.oid.id e2.oid.id).andThen (cmpNat e1.mode.idx e2.mode.idx))

/-- `e1 <= e2` for the derived `Ord` on `Entry` (what `Vec::sort` uses). -/
def Entry.le (e1 e2 : Entry) : Bool :=
  match e1.cmp e2 with
  | .gt => false
  | _ => true

/-! ### Tree (src/tree.rs): the storable list of entries -/

/-- `struct Tree { entries }` (`data` is a lazy cache of `serialize`). -/
structure Rit.Tree where
  entries : List Entry

/-- `Tree::new`: sort the entries (`Vec::sort`, stable merge sort over the
derived `Ord`). -/
def Rit.Tree.new (entries : List Entry) : Rit.Tree :=
  ⟨entries.mergeSort Entry.le⟩

/-- `Tree::serialize`: concatenation of `"<mode> <path>\0<raw hash bytes>"`. -/
def Rit.Tree.serialize (t : Rit.Tree) : List Nat :=
  (t.entries.map fun e =>
    asciiBytes e.mode.as_str ++ [32] ++ e.path.bytes ++ [0] ++ e.oid.id).flatten

/-- The `Storable` impl for `Tree`: type tag "tree", payload = `serialize`. -/
def Rit.Tree.toStorable (t : Rit.Tree) : Storable :=
  ⟨"tree", t.serialize⟩

/-! ### Author (src/author.rs) -/

/-- `chrono::DateTime<FixedOffset>`: an instant (unix seconds) together with a
fixed offset from UTC in seconds. -/
structure FixedOffsetTime where
  epoch : Int
  offsetSeconds : Int
deriving DecidableEq

/-- `DateTime::<Utc>::from`: same instant, offset zero. -/
def FixedOffsetTime.toUtc (t : FixedOffsetTime) : FixedOffsetTime :=
  ⟨t.epoch, 0⟩

/-- Two-digit zero-padded decimal (ASCII bytes). -/
def twoDigits (n : Nat) : List Nat :=
  [48 + n / 10 % 10, 48 + n % 10]

/-- chrono's `%z`: sign then `HHMM` of the offset. -/
def formatZ (offsetSeconds : Int) : List Nat :=
  (if offsetSeconds < 0 then [45] else [43]) ++
    twoDigits (offsetSeconds.natAbs / 3600) ++ twoDigits (offsetSeconds.natAbs % 3600 / 60)

/-- chrono's `%s`: unix timestamp in decimal. -/
def formatEpoch (t : FixedOffsetTime) : List Nat :=
  intDecimalBytes t.epoch

/-- `struct Author { name, email, time }` (name and email as their bytes). -/
structure Author where
  name : List Nat
  email : List Nat
  time : FixedOffsetTime

/-- `Author::new`. -/
def Author.new (name email : List Nat) (time : FixedOffsetTime) : Author :=
  ⟨name, email, time⟩

/-- `Author::to_str`: `format!("{} <{}> {}", name, email, timestamp)` where
`timestamp` is `DateTime::<Utc>::from(self.time).format("%s %z")` — note the
conversion to UTC before formatting. -/
def Author.to_str (a : Author) : List Nat :=
  a.name ++ asciiBytes " <" ++ a.email ++ asciiBytes "> " ++
    formatEpoch a.time.toUtc ++ [32] ++ formatZ a.time.toUtc.offsetSeconds

/-! ### Commit (src/commit.rs) -/

/-- `struct Commit { message, data }`. -/
structure Commit where
  message : List Nat
  data : List Nat

/-- `Commit::new`: optional `"parent <id>\n"`, then
`"tree <id>\nauthor <ident>\ncommitter <ident>\n\n<message>"`. -/
def Commit.new (parent : Option ObjectID) (oid : ObjectID) (author : Author)
    (message : List Nat) : Commit :=
  let parent_msg := match parent with
    | some p => asciiBytes "parent " ++ asciiBytes p.as_str ++ [10]
    | none => []
  ⟨message,
   parent_msg ++
     asciiBytes "tree " ++ asciiBytes oid.as_str ++ [10] ++
     asciiBytes "author " ++ author.to_str ++ [10] ++
     asciiBytes "committer " ++ author.to_str ++ [10] ++ [10] ++
     message⟩

/-- The `Storable` impl for `Commit`: type tag "commit", payload = `data`. -/
def Commit.toStorable (c : Commit) : Storable :=
  ⟨"commit", c.data⟩

/-! ### LockFile (src/lockfile.rs), over the filesystem model -/

/-- `LockFile::lock_path`: append ".lock" to the file name. -/
def LockFile.lock_path (p : String) : String :=
  p ++ ".lock"

/-- `LockFile::new`: create `P.lock` with exclusive creation (`create_new`);
fails immediately if it already exists.  No blocking, no retry. -/
def LockFile.new (p : String) (fs : FS) : Except String FS :=
  if fs.pathExists (LockFile.lock_path p) then .error "File exists (os error 17)"
  else .ok (fs.insert (LockFile.lock_path p) [])

/-- `LockFile::writer().write_all`: append staged bytes to `P.lock`. -/
def LockFile.write_all (p : String) (data : List Nat) (fs : FS) : FS :=
  match fs.lookup (LockFile.lock_path p) with
  | some old => fs.insert (LockFile.lock_path p) (old ++ data)
  | none => fs

/-- `LockFile::commit`: atomically rename `P.lock` onto `P`. -/
def LockFile.commit (p : String) (fs : FS) : Except String FS :=
  if fs.pathExists (LockFile.lock_path p) then
    .ok (fs.rename (LockFile.lock_path p) p)
  else .error "No such file or directory (os error 2)"

/-! ### Refs (src/refs.rs) -/

/-- `Refs::head_path`, relative to the refs root (".git"). -/
def Refs.head_path : String := "HEAD"

/-- `Refs::update_head`: acquire a lock over HEAD, write the hex id, commit. -/
def Refs.update_head (oid : ObjectID) (fs : FS) : Except String FS :=
  match LockFile.new Refs.head_path fs with
  | .error e => .error e
  | .ok fs1 =>
    LockFile.commit Refs.head_path
      (LockFile.write_all Refs.head_path (asciiBytes oid.as_str) fs1)

/-! ### Workspace snapshot (src/workspace.rs, consumed traversal interface)

The real `Workspace` walks the disk; the spec treats file discovery and
metadata as an external traversal service yielding relative paths plus
per-path directory/executable metadata.  A snapshot bundles the `list_files`
result (in its arbitrary on-disk discovery order) with the per-path queries
that `metadata`, `read_file` and `full_path(..).is_dir()` perform. -/

/-- Per-path metadata and contents, as `metadata`/`read_file` observe them. -/
structure FileInfo where
  is_dir : Bool
  /-- unix permission bits (`metadata.permissions().mode()`). -/
  mode : Nat
  content : List Nat

/-- A workspace snapshot: the traversal listing plus per-path queries. -/
structure Workspace where
  listing : List WPath
  info : WPath → Option FileInfo

/-- `Workspace::metadata`: errors when the path does not exist. -/
def Workspace.metadata (ws : Workspace) (p : WPath) : Except String FileInfo :=
  match ws.info p with
  | some fi => .ok fi
  | none => .error "No such file or directory (os error 2)"

/-- `Workspace::read_file`: errors when the path does not exist. -/
def Workspace.read_file (ws : Workspace) (p : WPath) : Except String (List Nat) :=
  match ws.info p with
  | some fi => .ok fi.content
  | none => .error "No such file or directory (os error 2)"

/-- `workspace.full_path(p).is_dir()`: false when absent. -/
def Workspace.is_dir (ws : Workspace) (p : WPath) : Bool :=
  match ws.info p with
  | some fi => fi.is_dir
  | none => false

/-! ### TreeBuilder (src/tree.rs: `TreeNode`, `Node`, `Tree::build`) -/

/-- `enum Node`: a subtree (its `HashMap` modelled as an association list from
single components to nodes) or a file entry. -/
inductive Node where
  | tree (map : List (List Nat × Node))
  | entry (p : WPath)

/-- HashMap lookup. -/
def nodeLookup (m : List (List Nat × Node)) (k : List Nat) : Option Node :=
  (m.find? fun e => e.1 == k).map (·.2)

/-- HashMap insert of a fresh key. -/
def nodeInsert (m : List (List Nat × Node)) (k : List Nat) (v : Node) :
    List (List Nat × Node) :=
  (k, v) :: m

/-- HashMap in-place update of an existing key (`get_mut`). -/
def nodeReplace (m : List (List Nat × Node)) (k : List Nat) (v : Node) :
    List (List Nat × Node) :=
  m.map fun e => if e.1 == k then (k, v) else e

/-- `TreeNode::add_entry`: walk `parents` creating intermediate directory
nodes on demand; the final component becomes a file leaf or an empty
directory node.  The `assert!`/`panic!` arms and the `unwrap` on a component
of an empty path are modelled as errors (a Rust panic aborts the commit
command just as an error propagated to `unwrap` does). -/
def TreeNode.add_entry (ws : Workspace) (m : List (List Nat × Node))
    (parents : List (List Nat)) (e : WPath) : Except String (List (List Nat × Node)) :=
  match parents with
  | [] =>
    match (e : List (List Nat)).getLast? with
    | none => .error "panic: no file name"
    | some basename =>
      match ws.metadata e with
      | .error err => .error err
      | .ok fi =>
        let node := if fi.is_dir then Node.tree [] else Node.entry e
        match nodeLookup m basename with
        | some _ => .error "panic: We kicked something out to insert this entry!"
        | none => .ok (nodeInsert m basename node)
  | p :: rest =>
    match nodeLookup m p with
    | some (Node.tree sub) =>
      match TreeNode.add_entry ws sub rest e with
      | .ok sub' => .ok (nodeReplace m p (Node.tree sub'))
      | .error err => .error err
    | some (Node.entry _) => .error "panic: Parsed a directory as a file?"
    | none =>
      match TreeNode.add_entry ws [] rest e with
      | .ok sub => .ok (nodeInsert m p (Node.tree sub))
      | .error err => .error err

/-- `<=` on workspace paths for the derived `Ord` (what `entries.sort()` uses
inside `Tree::build`). -/
def WPath.le (p q : WPath) : Bool :=
  match cmpWPath p q with
  | .gt => false
  | _ => true

/-- `Tree::build`: sort the paths, fold every path into the root `TreeNode`
(`&parents[..parents.len() - 1]` panics on an empty path), and then — the
function is unfinished — unconditionally return `Err(anyhow!("nah"))`. -/
def Rit.Tree.build (ws : Workspace) (entries : List WPath) : Except String Rit.Tree :=
  let sorted := entries.mergeSort WPath.le
  let step : List (List Nat × Node) → WPath → Except String (List (List Nat × Node)) :=
    fun root e =>
      match (e : List (List Nat)) with
      | [] => .error "panic: attempt to subtract with overflow"
      | _ :: _ => TreeNode.add_entry ws root (e : List (List Nat)).dropLast e
  match sorted.foldlM step [] with
  | .ok _root => .error "nah"
  | .error err => .error err

/-! ### The commit command (src/commands.rs) -/

/-- `struct CommitArgs` (cwd is implicit in the snapshot). -/
structure CommitArgs where
  message : Option (List Nat)
  name : List Nat
  email : List Nat
  time : FixedOffsetTime

/-- How `commands::commit` terminates abnormally: a Rust panic (`unwrap` of an
`Err`, an `assert!`, …) or an error returned through `Result`. -/
inductive CommitErr where
  | panic (msg : String)
  | failure (msg : String)
deriving DecidableEq

/-- The blob loop of `commands::commit`: skip directories, read each file,
store its blob, derive its mode from the permission bits, and accumulate
entries in listing order. -/
def storeBlobs (ws : Workspace) (files : List WPath) (fs : FS) (acc : List Entry) :
    Except CommitErr (FS × List Entry) :=
  match files with
  | [] => .ok (fs, acc)
  | file :: rest =>
    if ws.is_dir file then storeBlobs ws rest fs acc
    else
      match ws.read_file file with
      | .error e => .error (.failure e)
      | .ok data =>
        let blob := Blob.new data
        match Database.store "objects" blob.toStorable fs with
        | .error e => .error (.failure e)
        | .ok fs' =>
          match ws.metadata file with
          | .error e => .error (.failure e)
          | .ok md =>
            let mode := if md.mode &&& 73 ≠ 0 then Mode.ReadWriteExecute
                        else Mode.ReadWrite
            storeBlobs ws rest fs' (acc ++ [Entry.new file blob.toStorable.oid mode])

/-! ### UTF-8 and `Refs::read_head` (src/refs.rs)

`read_head` does `std::fs::read`, `str::from_utf8`, then
`.split_whitespace().collect::<String>()` — which concatenates the
whitespace-separated chunks, i.e. removes every whitespace character — and
parses the result with `ObjectID::from_str`. -/

/-- UTF-8 decoding of a byte list into code points (`str::from_utf8`):
rejects continuation-byte errors, overlong forms, surrogates and
out-of-range values, exactly as Rust's validation does. -/
def utf8DecodeCps : List Nat → Option (List Nat)
  | [] => some []
  | b :: rest =>
    if b < 128 then (utf8DecodeCps rest).map (b :: ·)
    else if b < 194 then none
    else if b < 224 then
      match rest with
      | [] => none
      | b1 :: rest1 =>
        if 128 ≤ b1 ∧ b1 < 192 then
          (utf8DecodeCps rest1).map (((b - 192) * 64 + (b1 - 128)) :: ·)
        else none
    else if b < 240 then
      match rest with
      | [] => none
      | [_] => none
      | b1 :: b2 :: rest2 =>
        if (128 ≤ b1 ∧ b1 < 192) ∧ (128 ≤ b2 ∧ b2 < 192) ∧
           ¬ (b = 224 ∧ b1 < 160) ∧ ¬ (b = 237 ∧ 160 ≤ b1) then
          (utf8DecodeCps rest2).map
            (((b - 224) * 4096 + (b1 - 128) * 64 + (b2 - 128)) :: ·)
        else none
    else if b < 245 then
      match rest with
      | b1 :: b2 :: b3 :: rest3 =>
        if (128 ≤ b1 ∧ b1 < 192) ∧ (128 ≤ b2 ∧ b2 < 192) ∧ (128 ≤ b3 ∧ b3 < 192) ∧
           ¬ (b = 240 ∧ b1 < 144) ∧ ¬ (b = 244 ∧ 144 ≤ b1) then
          (utf8DecodeCps rest3).map
            (((b - 240) * 262144 + (b1 - 128) * 4096 + (b2 - 128) * 64 + (b3 - 128)) :: ·)
        else none
      | _ => none
    else none

/-- Byte list to string (`str::from_utf8`), failing on invalid UTF-8. -/
def utf8DecodeString (bs : List Nat) : Option String :=
  (utf8DecodeCps bs).bind fun cps =>
    (cps.mapM fun n => if Nat.isValidChar n then some (Char.ofNat n) else none).map
      fun chars => ⟨chars⟩

/-- Rust's `char::is_whitespace`: the Unicode `White_Space` code points. -/
def rustIsWhitespace (c : Char) : Bool :=
  [9, 10, 11, 12, 13, 32, 133, 160, 5760, 8192, 8193, 8194, 8195, 8196, 8197,
   8198, 8199, 8200, 8201, 8202, 8232, 8233, 8239, 8287, 12288].contains c.toNat

/-- `Refs::read_head`: read HEAD, decode UTF-8, drop every whitespace
character (`split_whitespace().collect()`), parse as an ObjectID. -/
def Refs.read_head (fs : FS) : Except String ObjectID :=
  match fs.lookup Refs.head_path with
  | none => .error "No such file or directory (os error 2)"
  | some bs =>
    match utf8DecodeString bs with
    | none => .error "invalid utf-8 sequence"
    | some s => ObjectID.from_str ⟨s.data.filter fun c => ! rustIsWhitespace c⟩

/-- `commands::commit`: the commit protocol.  Note the unfinished
`Tree::build(..).unwrap()` invocation (marked `// XXX wrong invocation` in the
source): `Tree::build` always returns `Err`, so the `unwrap` always panics
before anything is stored. -/
def Commands.commit (args : CommitArgs) (ws : Workspace) (fs : FS) :
    Except CommitErr FS :=
  let files := ws.listing
  match Rit.Tree.build ws files with
  | .error e => .error (.panic e)
  | .ok _ =>
    match storeBlobs ws files fs [] with
    | .error e => .error e
    | .ok (fs1, entries) =>
      let tree := Rit.Tree.new entries
      match Database.store "objects" tree.toStorable fs1 with
      | .error e => .error (.failure e)
      | .ok fs2 =>
        let parent := (Refs.read_head fs2).toOption
        let author := Author.new args.name args.email args.time
        match args.message with
        | none => .error (.failure "No commit message")
        | some message =>
          let commit := Commit.new parent tree.toStorable.oid author message
          match Database.store "objects" commit.toStorable fs2 with
          | .error e => .error (.failure e)
          | .ok fs3 =>
            match Refs.update_head commit.toStorable.oid fs3 with
            | .error e => .error (.failure e)
            | .ok fs4 =>
              let bs := asciiBytes commit.toStorable.oid.as_str
              let old := (fs4.lookup Refs.head_path).getD []
              .ok (fs4.insert Refs.head_path (bs ++ old.drop bs.length))

/-! ### Properties of the derived orders -/

theorem cmpNat_eq_iff (a b : Nat) : cmpNat a b = .eq ↔ a = b := by
  unfold cmpNat
  rcases Nat.lt_trichotomy a b with h | h | h
  · rw [if_pos h]
    simp
    omega
  · subst h
    rw [if_neg (by omega), if_pos rfl]
    simp
  · rw [if_neg (by omega), if_neg (by omega)]
    simp
    omega

theorem cmpNat_lt_iff (a b : Nat) : cmpNat a b = .lt ↔ a < b := by
  unfold cmpNat
  rcases Nat.lt_trichotomy a b with h | h | h
  · rw [if_pos h]
    simp [h]
  · subst h
    rw [if_neg (by omega), if_pos rfl]
    simp
  · rw [if_neg (by omega), if_neg (by omega)]
    simp
    omega

theorem cmpNat_swap (a b : Nat) : (cmpNat a b).swap = cmpNat b a := by
  unfold cmpNat
  rcases Nat.lt_trichotomy a b with h | h | h
  · rw [if_pos h, if_neg (by omega), if_neg (by omega)]
    rfl
  · subst h
    rw [if_neg (by omega), if_pos rfl]
    rfl
  · rw [if_neg (by omega), if_neg (by omega), if_pos h]
    rfl

theorem cmpNat_lt_trans {a b c : Nat} (h1 : cmpNat a b = .lt) (h2 : cmpNat b c = .lt) :
    cmpNat a c = .lt := by
  rw [cmpNat_lt_iff] at *
  omega

theorem cmpList_eq_iff (cmp : α → α → Ordering)
    (hcmp : ∀ a b, cmp a b = .eq ↔ a = b) :
    ∀ (l1 l2 : List α), cmpList cmp l1 l2 = .eq ↔ l1 = l2
  | [], [] => by simp [cmpList]
  | [], _ :: _ => by simp [cmpList]
  | _ :: _, [] => by simp [cmpList]
  | a :: as_, b :: bs => by
    simp only [cmpList]
    cases hab : cmp a b with
    | lt =>
      simp only [List.cons.injEq]
      constructor
      · intro hx
        cases hx
      · rintro ⟨rfl, rfl⟩
        rw [(hcmp a a).mpr rfl] at hab
        cases hab
    | eq =>
      have hab' : a = b := (hcmp a b).mp hab
      subst hab'
      rw [cmpList_eq_iff cmp hcmp as_ bs]
      simp
    | gt =>
      simp only [List.cons.injEq]
      constructor
      · intro hx
        cases hx
      · rintro ⟨rfl, rfl⟩
        rw [(hcmp a a).mpr rfl] at hab
        cases hab

theorem cmpList_swap (cmp : α → α → Ordering)
    (hswap : ∀ a b, (cmp a b).swap = cmp b a) :
    ∀ (l1 l2 : List α), (cmpList cmp l1 l2).swap = cmpList cmp l2 l1
  | [], [] => by rfl
  | [], _ :: _ => by rfl
  | _ :: _, [] => by rfl
  | a :: as_, b :: bs => by
    simp only [cmpList]
    rw [← hswap a b]
    cases hab : cmp a b with
    | lt => rfl
    | eq => exact cmpList_swap cmp hswap as_ bs
    | gt => rfl

theorem cmpList_lt_trans (cmp : α → α → Ordering)
    (heq : ∀ a b, cmp a b = .eq ↔ a = b)
    (htrans : ∀ {a b c}, cmp a b = .lt → cmp b c = .lt → cmp a c = .lt) :
    ∀ (l1 l2 l3 : List α), cmpList cmp l1 l2 = .lt → cmpList cmp l2 l3 = .lt →
      cmpList cmp l1 l3 = .lt
  | [], l2, l3 => by
    intro h1 h2
    cases l2 with
    | nil => exact h2
    | cons b bs =>
      cases l3 with
      | nil => cases h2
      | cons c cs => rfl
  | _ :: _, [], _ => by
    intro h1 _
    cases h1
  | _ :: _, _ :: _, [] => by
    intro _ h2
    cases h2
  | a :: as_, b :: bs, c :: cs => by
    intro h1 h2
    simp only [cmpList] at h1 h2 ⊢
    cases hab : cmp a b with
    | lt =>
      cases hbc : cmp b c with
      | lt => rw [htrans hab hbc]
      | eq =>
        have : b = c := (heq b c).mp hbc
        subst this
        rw [hab]
      | gt =>
        rw [hbc] at h2
        cases h2
    | eq =>
      rw [hab] at h1
      have : a = b := (heq a b).mp hab
      subst this
      cases hac : cmp a c with
      | lt => rfl
      | eq =>
        rw [hac] at h2
        exact cmpList_lt_trans cmp heq (fun hx hy => htrans hx hy) as_ bs cs h1 h2
      | gt =>
        rw [hac] at h2
        cases h2
    | gt =>
      rw [hab] at h1
      cases h1

theorem cmpBytes_eq_iff (l1 l2 : List Nat) : cmpBytes l1 l2 = .eq ↔ l1 = l2 :=
  cmpList_eq_iff cmpNat cmpNat_eq_iff l1 l2

theorem cmpBytes_swap (l1 l2 : List Nat) : (cmpBytes l1 l2).swap = cmpBytes l2 l1 :=
  cmpList_swap cmpNat cmpNat_swap l1 l2

theorem cmpBytes_lt_trans {l1 l2 l3 : List Nat} :
    cmpBytes l1 l2 = .lt → cmpBytes l2 l3 = .lt → cmpBytes l1 l3 = .lt :=
  cmpList_lt_trans cmpNat cmpNat_eq_iff (fun h1 h2 => cmpNat_lt_trans h1 h2) l1 l2 l3

theorem cmpWPath_eq_iff (p q : WPath) : cmpWPath p q = .eq ↔ p = q :=
  cmpList_eq_iff cmpBytes cmpBytes_eq_iff p q

theorem cmpWPath_swap (p q : WPath) : (cmpWPath p q).swap = cmpWPath q p :=
  cmpList_swap cmpBytes cmpBytes_swap p q

theorem cmpWPath_lt_trans {p q r : WPath} :
    cmpWPath p q = .lt → cmpWPath q r = .lt → cmpWPath p r = .lt :=
  cmpList_lt_trans cmpBytes cmpBytes_eq_iff (fun h1 h2 => cmpBytes_lt_trans h1 h2) p q r

theorem Ordering.andThen_eq (o1 o2 : Ordering) :
    o1.andThen o2 = .eq ↔ o1 = .eq ∧ o2 = .eq := by
  cases o1 <;> simp [Ordering.andThen]

theorem Ordering.andThen_swap (o1 o2 : Ordering) :
    (o1.andThen o2).swap = o1.swap.andThen o2.swap := by
  cases o1 <;> cases o2 <;> rfl

theorem Ordering.andThen_lt (o1 o2 : Ordering) :
    o1.andThen o2 = .lt ↔ o1 = .lt ∨ (o1 = .eq ∧ o2 = .lt) := by
  cases o1 <;> simp [Ordering.andThen]

theorem Mode.idx_inj (m1 m2 : Mode) : m1.idx = m2.idx → m1 = m2 := by
  cases m1 <;> cases m2 <;> simp [Mode.idx]

theorem Entry.cmp_eq_iff (e1 e2 : Entry) : Entry.cmp e1 e2 = .eq ↔ e1 = e2 := by
  unfold Entry.cmp
  rw [Ordering.andThen_eq, Ordering.andThen_eq, cmpWPath_eq_iff, cmpBytes_eq_iff,
    cmpNat_eq_iff]
  constructor
  · rintro ⟨hp, ho, hm⟩
    obtain ⟨p1, o1, m1⟩ := e1
    obtain ⟨p2, o2, m2⟩ := e2
    simp only at hp ho hm
    obtain rfl := hp
    obtain rfl : o1 = o2 := by
      cases o1
      cases o2
      simp_all
    obtain rfl := Mode.idx_inj m1 m2 hm
    rfl
  · rintro rfl
    exact ⟨rfl, rfl, rfl⟩

theorem Entry.cmp_swap (e1 e2 : Entry) : (Entry.cmp e1 e2).swap = Entry.cmp e2 e1 := by
  unfold Entry.cmp
  rw [Ordering.andThen_swap, Ordering.andThen_swap, cmpWPath_swap, cmpBytes_swap,
    cmpNat_swap]

theorem Entry.cmp_lt_trans {e1 e2 e3 : Entry} (h1 : Entry.cmp e1 e2 = .lt)
    (h2 : Entry.cmp e2 e3 = .lt) : Entry.cmp e1 e3 = .lt := by
  unfold Entry.cmp at *
  rw [Ordering.andThen_lt] at h1 h2 ⊢
  rw [Ordering.andThen_lt] at h1 h2 ⊢
  rcases h1 with h1 | ⟨h1e, h1' | ⟨h1e', h1''⟩⟩ <;>
    rcases h2 with h2 | ⟨h2e, h2' | ⟨h2e', h2''⟩⟩
  · exact Or.inl (cmpWPath_lt_trans h1 h2)
  · rw [(cmpWPath_eq_iff _ _).mp h2e] at h1
    exact Or.inl h1
  · rw [(cmpWPath_eq_iff _ _).mp h2e] at h1
    exact Or.inl h1
  · rw [← (cmpWPath_eq_iff _ _).mp h1e] at h2
    exact Or.inl h2
  · refine Or.inr ⟨?_, Or.inl (cmpBytes_lt_trans h1' h2')⟩
    rw [(cmpWPath_eq_iff _ _).mpr]
    rw [(cmpWPath_eq_iff _ _).mp h1e]
    exact (cmpWPath_eq_iff _ _).mp h2e
  · refine Or.inr ⟨?_, Or.inl ?_⟩
    · rw [(cmpWPath_eq_iff _ _).mpr]
      rw [(cmpWPath_eq_iff _ _).mp h1e]
      exact (cmpWPath_eq_iff _ _).mp h2e
    · rw [(cmpBytes_eq_iff _ _).mp h2e'] at h1'
      exact h1'
  · rw [← (cmpWPath_eq_iff _ _).mp h1e] at h2
    exact Or.inl h2
  · refine Or.inr ⟨?_, Or.inl ?_⟩
    · rw [(cmpWPath_eq_iff _ _).mpr]
      rw [(cmpWPath_eq_iff _ _).mp h1e]
      exact (cmpWPath_eq_iff _ _).mp h2e
    · rw [← (cmpBytes_eq_iff _ _).mp h1e'] at h2'
      exact h2'
  · refine Or.inr ⟨?_, Or.inr ⟨?_, cmpNat_lt_trans h1'' h2''⟩⟩
    · rw [(cmpWPath_eq_iff _ _).mpr]
      rw [(cmpWPath_eq_iff _ _).mp h1e]
      exact (cmpWPath_eq_iff _ _).mp h2e
    · rw [(cmpBytes_eq_iff _ _).mpr]
      rw [(cmpBytes_eq_iff _ _).mp h1e']
      exact (cmpBytes_eq_iff _ _).mp h2e'

theorem Entry.le_trans {a b c : Entry} (h1 : Entry.le a b = true)
    (h2 : Entry.le b c = true) : Entry.le a c = true := by
  unfold Entry.le at *
  cases hab : Entry.cmp a b <;> rw [hab] at h1
  · cases hbc : Entry.cmp b c <;> rw [hbc] at h2
    · rw [Entry.cmp_lt_trans hab hbc]
    · rw [(Entry.cmp_eq_iff b c).mp hbc] at hab
      rw [hab]
    · cases h2
  · rw [(Entry.cmp_eq_iff a b).mp hab]
    exact h2
  · cases h1

theorem Entry.le_total (a b : Entry) : (Entry.le a b || Entry.le b a) = true := by
  unfold Entry.le
  rw [← Entry.cmp_swap a b]
  cases Entry.cmp a b <;> rfl

theorem Entry.le_antisymm {a b : Entry} (h1 : Entry.le a b = true)
    (h2 : Entry.le b a = true) : a = b := by
  unfold Entry.le at h1 h2
  rw [← Entry.cmp_swap a b] at h2
  cases hab : Entry.cmp a b <;> rw [hab] at h1 h2
  · cases h2
  · exact (Entry.cmp_eq_iff a b).mp hab
  · cases h1

/-! ### Filesystem lemmas -/

theorem FS.pathExists_eq_isSome (fs : FS) (p : String) :
    fs.pathExists p = (fs.lookup p).isSome := by
  unfold FS.pathExists FS.lookup
  cases fs.entries.find? fun e => e.1 == p <;> rfl

theorem FS.lookup_insert_self (fs : FS) (p : String) (v : List Nat) :
    (fs.insert p v).lookup p = some v := by
  unfold FS.insert FS.lookup
  rw [List.find?_cons_of_pos _ (by simp)]
  rfl

theorem FS.lookup_insert_ne (fs : FS) (p q : String) (v : List Nat) (h : q ≠ p) :
    (fs.insert p v).lookup q = fs.lookup q := by
  unfold FS.insert FS.lookup
  rw [List.find?_cons_of_neg _ (by simp [h.symm])]

theorem FS.lookup_remove_self (fs : FS) (p : String) :
    (fs.remove p).lookup p = none := by
  unfold FS.remove FS.lookup
  rw [show (FS.mk (fs.entries.filter fun e => ! (e.1 == p))).entries
      = fs.entries.filter fun e => ! (e.1 == p) from rfl]
  induction fs.entries with
  | nil => rfl
  | cons a as ih =>
    by_cases h : a.1 = p
    · rw [List.filter_cons_of_neg (by simp [h])]
      exact ih
    · rw [List.filter_cons_of_pos (by simp [h])]
      rw [List.find?_cons_of_neg _ (by simp [h])]
      exact ih

theorem FS.lookup_remove_ne (fs : FS) (p q : String) (h : q ≠ p) :
    (fs.remove p).lookup q = fs.lookup q := by
  unfold FS.remove FS.lookup
  rw [show (FS.mk (fs.entries.filter fun e => ! (e.1 == p))).entries
      = fs.entries.filter fun e => ! (e.1 == p) from rfl]
  induction fs.entries with
  | nil => rfl
  | cons a as ih =>
    by_cases ha : a.1 = p
    · rw [List.filter_cons_of_neg (by simp [ha])]
      rw [List.find?_cons_of_neg _ (by simp [ha]; exact fun hc => h hc.symm)]
      exact ih
    · rw [List.filter_cons_of_pos (by simp [ha])]
      by_cases haq : a.1 = q
      · rw [List.find?_cons_of_pos _ (by simp [haq]),
          List.find?_cons_of_pos _ (by simp [haq])]
      · rw [List.find?_cons_of_neg _ (by simp [haq]),
          List.find?_cons_of_neg _ (by simp [haq])]
        exact ih

theorem FS.pathExists_empty (p : String) : FS.empty.pathExists p = false := rfl

/-- A path is never equal to itself with a non-empty suffix appended. -/
theorem string_ne_append_suffix (s t : String) (h : t.length ≠ 0) : s ≠ s ++ t := by
  intro hx
  have := congrArg String.length hx
  rw [String.length_append] at this
  omega

/-! ### Claim C3: store short-circuit and idempotence -/

theorem tmpPath_ne_finalPath (root : String) (o : Storable) :
    Database.tmpPath root o ≠ Database.finalPath root o :=
  Ne.symm (string_ne_append_suffix (Database.finalPath root o) ".tmp" (by decide))

/-- C3: if the final object path already exists, `store` returns success
without writing; from a state with the final and temp paths free, storing
writes exactly one file whose content is the compressed canonical encoding,
and storing the same object again succeeds and changes nothing; decompressing
the stored content yields exactly the canonical encoding. -/
theorem store_idempotent_claim (root : String) (o : Storable) (fs : FS)
    (hf : fs.pathExists (Database.finalPath root o) = false)
    (ht : fs.pathExists (Database.tmpPath root o) = false) :
    ∃ fs', Database.store root o fs = .ok fs' ∧
      fs'.lookup (Database.finalPath root o) = some o.serialize ∧
      fs'.pathExists (Database.tmpPath root o) = false ∧
      Database.store root o fs' = .ok fs' ∧
      zlibDecompress o.serialize = some o.encoded_raw ∧
      ∀ fs2 : FS, fs2.pathExists (Database.finalPath root o) = true →
        Database.store root o fs2 = .ok fs2 := by
  refine ⟨((fs.insert (Database.tmpPath root o) o.serialize).remove
      (Database.tmpPath root o)).insert (Database.finalPath root o) o.serialize,
    ?_, FS.lookup_insert_self _ _ _, ?_, ?_, rfl, ?_⟩
  · unfold Database.store
    simp only [hf, ht, Bool.false_eq_true, if_false]
    unfold FS.rename
    rw [FS.lookup_insert_self]
  · rw [FS.pathExists_eq_isSome,
      FS.lookup_insert_ne _ _ _ _ (tmpPath_ne_finalPath root o),
      FS.lookup_remove_self]
    rfl
  · unfold Database.store
    simp only [FS.pathExists_eq_isSome, FS.lookup_insert_self, Option.isSome_some,
      if_true]
  · intro fs2 h2
    unfold Database.store
    simp only [h2, if_true]

/-- Witness for C3 at a concrete blob and the empty store. -/
theorem store_idempotent_claim_witness :
    ∃ fs', Database.store "objects" (Blob.new (asciiBytes "hi")).toStorable FS.empty
        = .ok fs' ∧
      fs'.lookup (Database.finalPath "objects" (Blob.new (asciiBytes "hi")).toStorable)
        = some (Blob.new (asciiBytes "hi")).toStorable.serialize ∧
      fs'.pathExists (Database.tmpPath "objects" (Blob.new (asciiBytes "hi")).toStorable)
        = false ∧
      Database.store "objects" (Blob.new (asciiBytes "hi")).toStorable fs' = .ok fs' ∧
      zlibDecompress (Blob.new (asciiBytes "hi")).toStorable.serialize
        = some (Blob.new (asciiBytes "hi")).toStorable.encoded_raw ∧
      ∀ fs2 : FS, fs2.pathExists
          (Database.finalPath "objects" (Blob.new (asciiBytes "hi")).toStorable) = true →
        Database.store "objects" (Blob.new (asciiBytes "hi")).toStorable fs2 = .ok fs2 :=
  store_idempotent_claim "objects" (Blob.new (asciiBytes "hi")).toStorable FS.empty rfl rfl

/-! ### Claim C2: canonical encoding and content hash -/

/-- C2: every storable's ObjectID is the fixed-width SHA-1 of exactly the
canonical encoding `"<type> <decimal-byte-length>\0<payload>"` (never of the
compressed bytes, which `serialize` produces separately); in particular a blob
with content "file contents" is identified by the hash of
"blob 13\0file contents". -/
theorem oid_hashes_canonical_encoding :
    (∀ o : Storable,
      Storable.oid o = ⟨sha1 o.encoded_raw⟩ ∧
      (Storable.oid o).id.length = sha1_output_size ∧
      o.encoded_raw =
        asciiBytes o.type_name ++ [32] ++ decimalBytes o.data.length ++ [0] ++ o.data ∧
      o.serialize = zlibCompress o.encoded_raw) ∧
    (Blob.new (asciiBytes "file contents")).toStorable.encoded_raw =
      asciiBytes "blob 13" ++ [0] ++ asciiBytes "file contents" ∧
    Storable.oid (Blob.new (asciiBytes "file contents")).toStorable =
      ⟨sha1 (asciiBytes "blob 13" ++ [0] ++ asciiBytes "file contents")⟩ := by
  refine ⟨fun o => ⟨rfl, sha1_length _, rfl, rfl⟩, by decide, ?_⟩
  show (⟨sha1 (Blob.new (asciiBytes "file contents")).toStorable.encoded_raw⟩ : ObjectID)
    = ⟨sha1 (asciiBytes "blob 13" ++ [0] ++ asciiBytes "file contents")⟩
  rw [show (Blob.new (asciiBytes "file contents")).toStorable.encoded_raw
    = asciiBytes "blob 13" ++ [0] ++ asciiBytes "file contents" by decide]

/-! ### Claim C4: tree serialization and entry ordering -/

/-- Follows the spec's words, for refinement comparison: entries ordered by
the raw bytes of their paths (`as_os_str` bytes, "/" included), not by the
component-wise `PathBuf` order the derived `Ord` actually uses. -/
def Entry.leRawBytesSpec (e1 e2 : Entry) : Bool :=
  match cmpBytes e1.path.bytes e2.path.bytes with
  | .gt => false
  | _ => true

/-- Follows the spec's words, for refinement comparison: serialization after
sorting by raw path bytes. -/
def treeSerializeRawBytesSpec (entries : List Entry) : List Nat :=
  Rit.Tree.serialize ⟨entries.mergeSort Entry.leRawBytesSpec⟩

/-- An entry whose path is the single component "a.txt". -/
def entryAtxt : Entry := Entry.new [asciiBytes "a.txt"] ⟨[1]⟩ Mode.ReadWrite

/-- An entry whose path has the two components "a"/"b". -/
def entryAb : Entry := Entry.new [asciiBytes "a", asciiBytes "b"] ⟨[2]⟩ Mode.ReadWrite

/-- C4 counterexample: the derived `Ord` on `Entry` compares paths
component-wise (so "a/b" sorts before "a.txt", since "a" < "a.txt"), while
raw path bytes would sort "a.txt" (0x2E after "a") before "a/b" (0x2F after
"a"); the two orderings produce different payloads on this entry list. -/
theorem tree_new_sorts_componentwise_not_raw_bytes :
    (Rit.Tree.new [entryAtxt, entryAb]).serialize ≠
      treeSerializeRawBytesSpec [entryAtxt, entryAb] := by
  have h1 : [entryAtxt, entryAb].mergeSort Entry.le = [entryAb, entryAtxt] := by
    simp +decide [List.mergeSort, List.merge]
  have h2 : [entryAtxt, entryAb].mergeSort Entry.leRawBytesSpec = [entryAtxt, entryAb] := by
    simp +decide [List.mergeSort, List.merge]
  show Rit.Tree.serialize ⟨[entryAtxt, entryAb].mergeSort Entry.le⟩ ≠ _
  unfold treeSerializeRawBytesSpec
  rw [h1, h2]
  decide

/-- C4 (amended): `Tree::new` sorts entries by the derived `Ord` — paths
compared component-wise (components by raw bytes), ties broken by oid bytes
and then mode — and under that ordering serialization is invariant to the
input ordering: any two permutations of an entry list serialize identically,
and the stored entry list is sorted. -/
theorem tree_new_serialize_perm_invariant (l1 l2 : List Entry) (h : l1.Perm l2) :
    (Rit.Tree.new l1).serialize = (Rit.Tree.new l2).serialize ∧
      List.Sorted (fun a b => Entry.le a b = true) (Rit.Tree.new l1).entries := by
  have htrans : ∀ (a b c : Entry), Entry.le a b → Entry.le b c → Entry.le a c :=
    fun _ _ _ h1 h2 => Entry.le_trans h1 h2
  have hs1 := List.sorted_mergeSort htrans Entry.le_total l1
  have hs2 := List.sorted_mergeSort htrans Entry.le_total l2
  haveI : IsAntisymm Entry (fun a b => Entry.le a b = true) :=
    ⟨fun _ _ h1 h2 => Entry.le_antisymm h1 h2⟩
  have hperm : (l1.mergeSort Entry.le).Perm (l2.mergeSort Entry.le) :=
    ((List.mergeSort_perm l1 Entry.le).trans h).trans
      (List.mergeSort_perm l2 Entry.le).symm
  have heq : l1.mergeSort Entry.le = l2.mergeSort Entry.le :=
    List.eq_of_perm_of_sorted hperm hs1 hs2
  constructor
  · show Rit.Tree.serialize ⟨l1.mergeSort Entry.le⟩
      = Rit.Tree.serialize ⟨l2.mergeSort Entry.le⟩
    rw [heq]
  · exact hs1

/-- Witness for C4 (amended) at a concrete two-entry swap. -/
theorem tree_new_serialize_perm_invariant_witness :
    (Rit.Tree.new [entryAtxt, entryAb]).serialize
      = (Rit.Tree.new [entryAb, entryAtxt]).serialize ∧
    List.Sorted (fun a b => Entry.le a b = true)
      (Rit.Tree.new [entryAtxt, entryAb]).entries :=
  tree_new_serialize_perm_invariant [entryAtxt, entryAb] [entryAb, entryAtxt]
    (List.Perm.swap entryAb entryAtxt [])

/-! ### Claim C5: commit payload layout -/

/-- C5: with a parent the payload begins with `"parent <hex-id>\n"` (the
parent's id) followed by the tree/author/committer/blank/message text; with no
parent the payload is exactly that text with no parent line. -/
theorem commit_payload_layout (parent tid : ObjectID) (a : Author) (msg : List Nat) :
    (Commit.new (some parent) tid a msg).data =
      asciiBytes "parent " ++ asciiBytes parent.as_str ++ [10] ++
      asciiBytes "tree " ++ asciiBytes tid.as_str ++ [10] ++
      asciiBytes "author " ++ a.to_str ++ [10] ++
      asciiBytes "committer " ++ a.to_str ++ [10] ++ [10] ++ msg ∧
    (Commit.new none tid a msg).data =
      asciiBytes "tree " ++ asciiBytes tid.as_str ++ [10] ++
      asciiBytes "author " ++ a.to_str ++ [10] ++
      asciiBytes "committer " ++ a.to_str ++ [10] ++ [10] ++ msg :=
  ⟨rfl, rfl⟩

/-! ### Claim C6: author line formatting -/

/-- An author whose timestamp carries a +01:00 fixed offset. -/
def authorPlus0100 : Author :=
  Author.new (asciiBytes "A") (asciiBytes "a@b") ⟨100, 3600⟩

/-- C6 counterexample: the claim predicts the supplied fixed offset (+0100
for a +01:00 timestamp) in the author line, but `to_str` converts the
timestamp to UTC before formatting, so the offset printed is +0000. -/
theorem author_offset_not_preserved :
    Author.to_str authorPlus0100 ≠ asciiBytes "A <a@b> 100 +0100" ∧
    Author.to_str authorPlus0100 = asciiBytes "A <a@b> 100 +0000" := by
  constructor
  · decide
  · decide

/-- C6 (amended): the author/committer identity is formatted as
`"name <email> <epoch-seconds> <±HHMM>"`, but with the offset always +0000:
the timestamp is converted to UTC before `%s %z` formatting, so the supplied
fixed offset is discarded (epoch seconds are those of the supplied instant). -/
theorem formatZ_zero : formatZ 0 = asciiBytes "+0000" := by decide

theorem author_to_str_always_utc (a : Author) :
    Author.to_str a = a.name ++ asciiBytes " <" ++ a.email ++ asciiBytes "> " ++
      intDecimalBytes a.time.epoch ++ [32] ++ asciiBytes "+0000" := by
  have h0 : a.time.toUtc.offsetSeconds = 0 := rfl
  unfold Author.to_str
  rw [h0, formatZ_zero]
  rfl

/-! ### Claims C1 and C7: the unfinished TreeBuilder and commit protocol -/

/-- `Tree::build` can never return a tree: every control path ends in `Err`
(the success path ends in the literal `Err(anyhow!("nah"))`). -/
theorem tree_build_always_errors (ws : Workspace) (entries : List WPath) :
    ∃ e, Rit.Tree.build ws entries = .error e := by
  simp only [Rit.Tree.build]
  split
  · exact ⟨"nah", rfl⟩
  · exact ⟨_, rfl⟩

/-- The spec's nested-workspace scenario: `subdir/`, `subdir/file.txt`,
`subdir/nested/`, `subdir/nested/file.txt`, with contents "hi" and "hello"
and non-executable file modes. -/
def scenarioFiles : List (WPath × FileInfo) :=
  [([asciiBytes "subdir"], ⟨true, 493, []⟩),
   ([asciiBytes "subdir", asciiBytes "file.txt"], ⟨false, 420, asciiBytes "hi"⟩),
   ([asciiBytes "subdir", asciiBytes "nested"], ⟨true, 493, []⟩),
   ([asciiBytes "subdir", asciiBytes "nested", asciiBytes "file.txt"],
    ⟨false, 420, asciiBytes "hello"⟩)]

/-- The scenario workspace snapshot built from `scenarioFiles`. -/
def scenarioWorkspace : Workspace :=
  { listing := scenarioFiles.map (·.1),
    info := fun p => (scenarioFiles.find? fun e => e.1 == p).map (·.2) }

/-- On the scenario workspace every insertion into the root `TreeNode`
succeeds, and `Tree::build` still returns the unconditional `Err("nah")`. -/
theorem scenario_build_eq_nah :
    Rit.Tree.build scenarioWorkspace scenarioWorkspace.listing = .error "nah" := by
  have hsort : scenarioWorkspace.listing.mergeSort WPath.le = scenarioWorkspace.listing := by
    simp +decide [List.mergeSort, List.merge, scenarioWorkspace, scenarioFiles]
  unfold Rit.Tree.build
  rw [hsort]
  rfl

/-- C1 (code bug): `Tree::build` never produces a root tree for any
workspace snapshot — in particular not for the nested scenario, where it
returns `Err("nah")` and persists nothing. -/
theorem tree_build_never_returns_tree :
    (∀ (ws : Workspace) (entries : List WPath), ∃ e, Rit.Tree.build ws entries = .error e) ∧
    Rit.Tree.build scenarioWorkspace scenarioWorkspace.listing = .error "nah" :=
  ⟨tree_build_always_errors, scenario_build_eq_nah⟩

/-- C7 (code bug): the commit protocol never reaches message validation: the
`Tree::build(..).unwrap()` at the top of `commands::commit` panics on every
input, so no commit request — with an empty message or otherwise — is ever
rejected as a validation failure, and nothing is ever stored.  Concretely,
committing an empty (`Some("")`) message in the scenario workspace panics
with "nah" instead of failing validation. -/
theorem commit_empty_message_not_validated :
    (∀ (args : CommitArgs) (ws : Workspace) (fs : FS),
      ∃ m, Commands.commit args ws fs = .error (.panic m)) ∧
    Commands.commit
      ⟨some [], asciiBytes "Sean", asciiBytes "sean@zombo.com", ⟨1609462861, 0⟩⟩
      scenarioWorkspace FS.empty = .error (.panic "nah") := by
  constructor
  · intro args ws fs
    obtain ⟨e, he⟩ := tree_build_always_errors ws ws.listing
    exact ⟨e, by simp only [Commands.commit, he]⟩
  · simp only [Commands.commit, scenario_build_eq_nah]

/-! ### Claim C8: lockfile exclusivity and atomic publish -/

/-- C8: acquiring the lock over P creates `P.lock` exclusively and fails
immediately (no blocking or retry) when `P.lock` exists; P is not mutated by
acquisition or staged writes; commit atomically renames `P.lock` onto P.  Of
two interleaved HEAD-update attempts, the first acquisition succeeds and the
second fails with the acquisition error, and a completed `update_head` leaves
HEAD holding exactly the winner's hex id with the lock released. -/
theorem lockfile_exclusive_protocol (fs : FS) (p : String) (bs : List Nat)
    (oid : ObjectID) (h : fs.pathExists (LockFile.lock_path p) = false) :
    ∃ fs1, LockFile.new p fs = .ok fs1 ∧
      fs1.pathExists (LockFile.lock_path p) = true ∧
      fs1.lookup p = fs.lookup p ∧
      LockFile.new p fs1 = .error "File exists (os error 17)" ∧
      (LockFile.write_all p bs fs1).lookup p = fs.lookup p ∧
      LockFile.commit p (LockFile.write_all p bs fs1)
        = .ok (((LockFile.write_all p bs fs1).remove (LockFile.lock_path p)).insert p bs) ∧
      (((LockFile.write_all p bs fs1).remove (LockFile.lock_path p)).insert p bs).lookup p
        = some bs ∧
      (∀ fs0 : FS, fs0.pathExists (LockFile.lock_path Refs.head_path) = false →
        ∃ fsf, Refs.update_head oid fs0 = .ok fsf ∧
          fsf.lookup Refs.head_path = some (asciiBytes oid.as_str) ∧
          fsf.pathExists (LockFile.lock_path Refs.head_path) = false) := by
  have hpne : p ≠ LockFile.lock_path p :=
    string_ne_append_suffix p ".lock" (by decide)
  have hw : LockFile.write_all p bs (fs.insert (LockFile.lock_path p) [])
      = (fs.insert (LockFile.lock_path p) []).insert (LockFile.lock_path p) bs := by
    unfold LockFile.write_all
    rw [FS.lookup_insert_self]
    rfl
  refine ⟨fs.insert (LockFile.lock_path p) [], ?_, ?_, ?_, ?_, ?_, ?_, ?_, ?_⟩
  · unfold LockFile.new
    simp only [h, Bool.false_eq_true, if_false]
  · rw [FS.pathExists_eq_isSome, FS.lookup_insert_self]
    rfl
  · exact FS.lookup_insert_ne _ _ _ _ hpne
  · unfold LockFile.new
    simp only [FS.pathExists_eq_isSome, FS.lookup_insert_self, Option.isSome_some,
      if_true]
  · rw [hw, FS.lookup_insert_ne _ _ _ _ hpne, FS.lookup_insert_ne _ _ _ _ hpne]
  · unfold LockFile.commit
    rw [hw]
    simp only [FS.pathExists_eq_isSome, FS.lookup_insert_self, Option.isSome_some,
      if_true]
    unfold FS.rename
    rw [FS.lookup_insert_self]
  · exact FS.lookup_insert_self _ _ _
  · intro fs0 h0
    have hne : Refs.head_path ≠ LockFile.lock_path Refs.head_path :=
      string_ne_append_suffix Refs.head_path ".lock" (by decide)
    have hw0 : LockFile.write_all Refs.head_path (asciiBytes oid.as_str)
        (fs0.insert (LockFile.lock_path Refs.head_path) [])
        = (fs0.insert (LockFile.lock_path Refs.head_path) []).insert
            (LockFile.lock_path Refs.head_path) (asciiBytes oid.as_str) := by
      unfold LockFile.write_all
      rw [FS.lookup_insert_self]
      rfl
    refine ⟨(((fs0.insert (LockFile.lock_path Refs.head_path) []).insert
        (LockFile.lock_path Refs.head_path) (asciiBytes oid.as_str)).remove
        (LockFile.lock_path Refs.head_path)).insert Refs.head_path
        (asciiBytes oid.as_str), ?_, ?_, ?_⟩
    · unfold Refs.update_head
      unfold LockFile.new
      simp only [h0, Bool.false_eq_true, if_false, Except.bind]
      rw [hw0]
      unfold LockFile.commit
      simp only [FS.pathExists_eq_isSome, FS.lookup_insert_self, Option.isSome_some,
        if_true]
      unfold FS.rename
      rw [FS.lookup_insert_self]
    · exact FS.lookup_insert_self _ _ _
    · rw [FS.pathExists_eq_isSome,
        FS.lookup_insert_ne _ _ _ _ (Ne.symm hne), FS.lookup_remove_self]
      rfl

/-- Witness for C8 at the empty filesystem and HEAD. -/
theorem lockfile_exclusive_protocol_witness :
    ∃ fs1, LockFile.new "HEAD" FS.empty = .ok fs1 ∧
      fs1.pathExists (LockFile.lock_path "HEAD") = true ∧
      fs1.lookup "HEAD" = FS.empty.lookup "HEAD" ∧
      LockFile.new "HEAD" fs1 = .error "File exists (os error 17)" ∧
      (LockFile.write_all "HEAD" [1] fs1).lookup "HEAD" = FS.empty.lookup "HEAD" ∧
      LockFile.commit "HEAD" (LockFile.write_all "HEAD" [1] fs1)
        = .ok (((LockFile.write_all "HEAD" [1] fs1).remove
            (LockFile.lock_path "HEAD")).insert "HEAD" [1]) ∧
      (((LockFile.write_all "HEAD" [1] fs1).remove
          (LockFile.lock_path "HEAD")).insert "HEAD" [1]).lookup "HEAD" = some [1] ∧
      (∀ fs0 : FS, fs0.pathExists (LockFile.lock_path Refs.head_path) = false →
        ∃ fsf, Refs.update_head ⟨List.replicate 20 0⟩ fs0 = .ok fsf ∧
          fsf.lookup Refs.head_path = some (asciiBytes (ObjectID.mk (List.replicate 20 0)).as_str) ∧
          fsf.pathExists (LockFile.lock_path Refs.head_path) = false) :=
  lockfile_exclusive_protocol FS.empty "HEAD" [1] ⟨List.replicate 20 0⟩ rfl

/-! ### Claim C9: reading HEAD -/

deriving instance DecidableEq for Except

/-- Follows the spec's words, for refinement comparison: trim whitespace from
both ends of HEAD's contents and parse the remainder. -/
def read_head_trimSpec (fs : FS) : Except String ObjectID :=
  match fs.lookup Refs.head_path with
  | none => .error "No such file or directory (os error 2)"
  | some bs =>
    match utf8DecodeString bs with
    | none => .error "invalid utf-8 sequence"
    | some s =>
      ObjectID.from_str
        ⟨((s.data.dropWhile rustIsWhitespace).reverse.dropWhile rustIsWhitespace).reverse⟩

/-- A HEAD file holding forty hex digits split by an interior space. -/
def headWithInnerSpace : FS :=
  FS.empty.insert Refs.head_path
    (asciiBytes "aaaaaaaaaaaaaaaaaaaa aaaaaaaaaaaaaaaaaaaa")

/-- C9 counterexample: `read_head` does not trim-then-parse; it removes EVERY
whitespace character.  On contents with an interior space between two 20-digit
halves it succeeds, where the claimed trim-then-parse behaviour fails on the
space. -/
theorem read_head_not_trim_then_parse :
    Refs.read_head headWithInnerSpace = .ok ⟨List.replicate 20 170⟩ ∧
    read_head_trimSpec headWithInnerSpace = .error "hex decode error" := by
  constructor
  · decide
  · decide

/-- C9 (amended): `read_head` fails when HEAD is absent; every id it returns
has the fixed 20-byte hash width (other decoded lengths are rejected); and on
present contents it removes every whitespace character (concatenating the
whitespace-separated chunks rather than merely trimming the ends) and parses
the remainder as a hex ObjectID. -/
theorem read_head_removes_all_whitespace (fs : FS) :
    (fs.lookup Refs.head_path = none →
      Refs.read_head fs = .error "No such file or directory (os error 2)") ∧
    (∀ oid, Refs.read_head fs = .ok oid → oid.id.length = sha1_output_size) ∧
    (∀ bs, fs.lookup Refs.head_path = some bs →
      Refs.read_head fs =
        match utf8DecodeString bs with
        | none => .error "invalid utf-8 sequence"
        | some s => ObjectID.from_str ⟨s.data.filter fun c => ! rustIsWhitespace c⟩) := by
  refine ⟨?_, ?_, ?_⟩
  · intro h
    unfold Refs.read_head
    rw [h]
  · intro oid hok
    unfold Refs.read_head at hok
    cases hl : fs.lookup Refs.head_path with
    | none =>
      simp only [hl] at hok
      cases hok
    | some bs =>
      simp only [hl] at hok
      cases hu : utf8DecodeString bs with
      | none =>
        simp only [hu] at hok
        cases hok
      | some s =>
        simp only [hu] at hok
        unfold ObjectID.from_str at hok
        cases hd : hexDecodeChars
            (String.data ⟨s.data.filter fun c => ! rustIsWhitespace c⟩) with
        | none =>
          simp only [hd] at hok
          cases hok
        | some id =>
          simp only [hd] at hok
          by_cases hlen : id.length = sha1_output_size
          · rw [if_neg (by simp [hlen])] at hok
            injection hok with hok
            rw [← hok]
            exact hlen
          · rw [if_pos hlen] at hok
            cases hok
  · intro bs h
    unfold Refs.read_head
    rw [h]

/-- Witness for C9 (amended) at a concrete HEAD file. -/
theorem read_head_removes_all_whitespace_witness :
    (ObjectID.mk (List.replicate 20 170)).id.length = sha1_output_size ∧
    Refs.read_head headWithInnerSpace =
      match utf8DecodeString (asciiBytes "aaaaaaaaaaaaaaaaaaaa aaaaaaaaaaaaaaaaaaaa") with
      | none => .error "invalid utf-8 sequence"
      | some s => ObjectID.from_str ⟨s.data.filter fun c => ! rustIsWhitespace c⟩ :=
  ⟨(read_head_removes_all_whitespace headWithInnerSpace).2.1
      ⟨List.replicate 20 170⟩ (by decide),
   (read_head_removes_all_whitespace headWithInnerSpace).2.2
      (asciiBytes "aaaaaaaaaaaaaaaaaaaa aaaaaaaaaaaaaaaaaaaa") rfl⟩

/-! ### Claim C10: ObjectID hex round-trip -/

theorem hexVal_lt {c : Char} {v : Nat} (h : hexVal c = some v) : v < 16 := by
  unfold hexVal at h
  split at h
  · injection h with h
    omega
  · split at h
    · injection h with h
      omega
    · split at h
      · injection h with h
        omega
      · cases h

theorem hexDecodeChars_lt :
    ∀ (cs : List Char) (l : List Nat), hexDecodeChars cs = some l → ∀ b ∈ l, b < 256
  | [], l => by
    intro h b hb
    injection h with h
    subst h
    cases hb
  | [_], l => by
    intro h
    cases h
  | c1 :: c2 :: rest, l => by
    intro h b hb
    unfold hexDecodeChars at h
    cases h1 : hexVal c1 with
    | none =>
      simp only [h1] at h
      cases h
    | some hi =>
      cases h2 : hexVal c2 with
      | none =>
        simp only [h1, h2] at h
        cases h
      | some lo =>
        cases h3 : hexDecodeChars rest with
        | none =>
          simp only [h1, h2, h3] at h
          cases h
        | some tl =>
          simp only [h1, h2, h3] at h
          have hhi := hexVal_lt h1
          have hlo := hexVal_lt h2
          injection h with h
          subst h
          cases hb with
          | head => omega
          | tail _ hb => exact hexDecodeChars_lt rest tl h3 b hb

theorem hexVal_hexDigitChar : ∀ n, n < 16 → hexVal (hexDigitChar n) = some n := by
  decide

theorem hexDigitChar_mem_hexChars : ∀ n, n < 16 →
    hexDigitChar n ∈ "0123456789abcdef".data := by
  decide

theorem hexEncode_data : ∀ bs : List Nat, (hexEncode bs).data =
    bs.flatMap fun b => [hexDigitChar (b / 16), hexDigitChar (b % 16)] :=
  fun _ => rfl

theorem hexEncode_length : ∀ bs : List Nat, (hexEncode bs).data.length = 2 * bs.length
  | [] => rfl
  | b :: rest => by
    rw [hexEncode_data, List.flatMap_cons, List.length_append,
      ← hexEncode_data, hexEncode_length rest]
    simp [Nat.mul_add, Nat.add_comm]

theorem hexEncode_chars : ∀ (bs : List Nat), (∀ b ∈ bs, b < 256) →
    ∀ c ∈ (hexEncode bs).data, c ∈ "0123456789abcdef".data
  | [], _ => by
    intro c hc
    cases hc
  | b :: rest, h => by
    intro c hc
    rw [hexEncode_data, List.flatMap_cons, ← hexEncode_data] at hc
    have hb : b < 256 := h b (List.mem_cons_self b rest)
    rcases List.mem_append.mp hc with h1 | h2
    · rcases h1 with _ | ⟨_, h1⟩
      · exact hexDigitChar_mem_hexChars (b / 16) (by omega)
      · rcases h1 with _ | ⟨_, h1⟩
        · exact hexDigitChar_mem_hexChars (b % 16) (by omega)
        · cases h1
    · exact hexEncode_chars rest (fun x hx => h x (List.mem_cons_of_mem b hx)) c h2

theorem hexDecode_hexEncode : ∀ (bs : List Nat), (∀ b ∈ bs, b < 256) →
    hexDecodeChars (hexEncode bs).data = some bs
  | [], _ => rfl
  | b :: rest, h => by
    have hb : b < 256 := h b (List.mem_cons_self b rest)
    have heq : (hexEncode (b :: rest)).data
        = hexDigitChar (b / 16) :: hexDigitChar (b % 16) :: (hexEncode rest).data := rfl
    rw [heq]
    unfold hexDecodeChars
    rw [hexVal_hexDigitChar (b / 16) (by omega), hexVal_hexDigitChar (b % 16) (by omega),
      hexDecode_hexEncode rest (fun x hx => h x (List.mem_cons_of_mem b hx))]
    dsimp only
    have : b / 16 * 16 + b % 16 = b := by omega
    rw [this]

/-- C10: every ObjectID that is either derived from a storable or parsed from
hex text serializes with `as_str` to exactly 40 lowercase hexadecimal
characters, and `from_str` of that string returns the identical id. -/
theorem objectid_hex_roundtrip (oid : ObjectID)
    (h : (∃ o : Storable, oid = Storable.oid o) ∨ ∃ s, ObjectID.from_str s = .ok oid) :
    oid.as_str.length = 40 ∧
    (∀ c ∈ oid.as_str.data, c ∈ "0123456789abcdef".data) ∧
    ObjectID.from_str oid.as_str = .ok oid := by
  have hbytes : oid.id.length = 20 ∧ ∀ b ∈ oid.id, b < 256 := by
    rcases h with ⟨o, rfl⟩ | ⟨s, hs⟩
    · exact ⟨sha1_length _, sha1_lt _⟩
    · unfold ObjectID.from_str at hs
      cases hd : hexDecodeChars s.data with
      | none =>
        simp only [hd] at hs
        cases hs
      | some id =>
        simp only [hd] at hs
        by_cases hlen : id.length = sha1_output_size
        · rw [if_neg (by simp [hlen])] at hs
          injection hs with hs
          rw [← hs]
          exact ⟨hlen, hexDecodeChars_lt s.data id hd⟩
        · rw [if_pos hlen] at hs
          cases hs
  obtain ⟨hlen, hlt⟩ := hbytes
  refine ⟨?_, hexEncode_chars _ hlt, ?_⟩
  · show (hexEncode oid.id).data.length = 40
    rw [hexEncode_length, hlen]
  · unfold ObjectID.from_str
    rw [show ObjectID.as_str oid = hexEncode oid.id from rfl,
      hexDecode_hexEncode _ hlt]
    dsimp only
    rw [if_neg (by simp [hlen, sha1_output_size])]

/-- Witness for C10 at a concrete parsed id. -/
theorem objectid_hex_roundtrip_witness :
    (ObjectID.mk (List.replicate 20 170)).as_str.length = 40 ∧
    (∀ c ∈ (ObjectID.mk (List.replicate 20 170)).as_str.data,
      c ∈ "0123456789abcdef".data) ∧
    ObjectID.from_str (ObjectID.mk (List.replicate 20 170)).as_str
      = .ok ⟨List.replicate 20 170⟩ :=
  objectid_hex_roundtrip ⟨List.replicate 20 170⟩
    (Or.inr ⟨"aaaaaaaaaaaaaaaaaaaaaaaaaaaaaaaaaaaaaaaa", by decide⟩)
